import Mathlib

/-!
Verification of the mailcat email ingestion core against its specification.

The development shallowly embeds the two components under scrutiny:

* `src/utils/extractor.ts` — the signal extractor (`extractData` with its
  module-level `codePatterns` / `linkPatterns` global-flag regexes), and
* `src/handlers/email.ts` — the MIME normalizer (`parseMimeContent`,
  `decodeQuotedPrintable`, `htmlToText`, and the `atob` fallback).

JavaScript regular expressions are embedded via a small backtracking engine
(`RE` / `mrun`) whose alternation is left-preferring and whose quantifiers are
greedy (or lazy where the source uses `*?`), matching the ECMAScript
backtracking order for the pattern constructs actually present in the source.
Strings are modelled as lists of Unicode scalar values; all inputs exercised
here lie in the BMP, where JavaScript UTF-16 indexing agrees with scalar
indexing.  The stateful `lastIndex` of global-flag regex objects is modelled
explicitly (`ExtractorState`), since the source relies on resetting it.
-/

namespace Mailcat

/-! ## A backtracking regex engine (ECMAScript-style, for the source's patterns)

Every quantifier in the source's patterns applies to a single character class
(or is `?` on a small group), so the engine provides: literal strings,
character classes, sequencing, left-preferring alternation, greedy `?`,
greedy `*`/`+`/`{lo,hi}`/`{lo,}` over classes, lazy `[\s\S]*?`, and a single
capture group. -/

inductive RE where
  | eps : RE
  | str (cs : List Char) : RE
  | cls (p : Char → Bool) : RE
  | seq (a b : RE) : RE
  | alt (a b : RE) : RE
  | opt (a : RE) : RE
  | starCls (p : Char → Bool) : RE
  | plusCls (p : Char → Bool) : RE
  | repCls (lo hi : Nat) (p : Char → Bool) : RE
  | repMin (lo : Nat) (p : Char → Bool) : RE
  | lazyAny : RE
  | group (a : RE) : RE

/-- Case-insensitive character comparison used by the `i` flag: ASCII folding,
which coincides with ECMAScript canonicalisation on the characters occurring
in the source's patterns. -/
def eqc (ci : Bool) (a b : Char) : Bool :=
  if ci then a.toLower == b.toLower else a == b

/-- Strip a literal off the front of the input (`a` is the pattern literal,
second argument the input). -/
def stripLit (ci : Bool) : List Char → List Char → Option (List Char)
  | [], s => some s
  | _ :: _, [] => none
  | c :: cs, x :: xs => if eqc ci c x then stripLit ci cs xs else none

/-- Greedy Kleene star over a character class, with backtracking into the
continuation: consume as many `p`-characters as possible, then give back one
at a time while the continuation fails. -/
def greedyClsRun {α : Type} (p : Char → Bool) : List Char → (List Char → Option α) → Option α
  | [], k => k []
  | c :: cs, k =>
    if p c then
      match greedyClsRun p cs k with
      | some r => some r
      | none => k (c :: cs)
    else k (c :: cs)

/-- Greedy `{lo,hi}` repetition over a character class. -/
def repClsRun {α : Type} (p : Char → Bool) : Nat → Nat → List Char → (List Char → Option α) → Option α
  | lo, 0, s, k => if lo == 0 then k s else none
  | lo, _ + 1, [], k => if lo == 0 then k [] else none
  | lo, hi + 1, c :: cs, k =>
    if p c then
      match repClsRun p (lo - 1) hi cs k with
      | some r => some r
      | none => if lo == 0 then k (c :: cs) else none
    else if lo == 0 then k (c :: cs) else none

/-- Greedy `{lo,}` repetition over a character class. -/
def repMinRun {α : Type} (p : Char → Bool) : Nat → List Char → (List Char → Option α) → Option α
  | 0, s, k => greedyClsRun p s k
  | _ + 1, [], _ => none
  | n + 1, c :: cs, k => if p c then repMinRun p n cs k else none

/-- Lazy `[\s\S]*?`: try the continuation first, consume a character only on
failure. -/
def lazyAnyRun {α : Type} : List Char → (List Char → Option α) → Option α
  | s, k =>
    match k s with
    | some r => some r
    | none =>
      match s with
      | [] => none
      | _ :: cs => lazyAnyRun cs k

/-- The matcher: `mrun ci re s cap k` attempts to match `re` at the start of
`s`, threading the (single) capture group's content through `cap`, calling the
continuation `k` on the remaining input.  Backtracking order is the
ECMAScript one: alternation tries the left branch first, `?` tries presence
first, class quantifiers are greedy (except `lazyAny`). -/
def mrun {α : Type} (ci : Bool) :
    RE → List Char → Option (List Char) → (List Char → Option (List Char) → Option α) → Option α
  | .eps, s, cap, k => k s cap
  | .str cs, s, cap, k =>
    match stripLit ci cs s with
    | some s' => k s' cap
    | none => none
  | .cls p, s, cap, k =>
    match s with
    | [] => none
    | c :: cs => if p c then k cs cap else none
  | .seq a b, s, cap, k => mrun ci a s cap (fun s' cap' => mrun ci b s' cap' k)
  | .alt a b, s, cap, k =>
    match mrun ci a s cap k with
    | some r => some r
    | none => mrun ci b s cap k
  | .opt a, s, cap, k =>
    match mrun ci a s cap k with
    | some r => some r
    | none => k s cap
  | .starCls p, s, cap, k => greedyClsRun p s (fun s' => k s' cap)
  | .plusCls p, s, cap, k =>
    match s with
    | [] => none
    | c :: cs => if p c then greedyClsRun p cs (fun s' => k s' cap) else none
  | .repCls lo hi p, s, cap, k => repClsRun p lo hi s (fun s' => k s' cap)
  | .repMin lo p, s, cap, k => repMinRun p lo s (fun s' => k s' cap)
  | .lazyAny, s, cap, k => lazyAnyRun s (fun s' => k s' cap)
  | .group a, s, cap, k =>
    mrun ci a s cap (fun s' _ => k s' (some (s.take (s.length - s'.length))))

/-- A compiled pattern: regex plus its `i` flag. -/
structure JsRegex where
  re : RE
  ci : Bool

/-- Search for the leftmost match at or after the current suffix, `pos` being
the absolute index of the suffix's head.  Returns `(start, end, capture)`. -/
def searchOff (ci : Bool) (re : RE) : List Char → Nat → Option (Nat × Nat × Option (List Char))
  | s, pos =>
    match mrun ci re s none (fun rest cap => some (s.length - rest.length, cap)) with
    | some (len, cap) => some (pos, pos + len, cap)
    | none =>
      match s with
      | [] => none
      | _ :: t => searchOff ci re t (pos + 1)

/-- `RegExp.prototype.exec` starting the scan at `start` (the `lastIndex`):
leftmost match at or after `start`, as `(start, end, capture)`. -/
def execFrom (r : JsRegex) (s : List Char) (start : Nat) : Option (Nat × Nat × Option (List Char)) :=
  searchOff r.ci r.re (s.drop start) start

/-- `RegExp.prototype.test`: does the pattern match anywhere in the string? -/
def reTest (r : JsRegex) (s : String) : Bool :=
  (execFrom r s.toList 0).isSome

/-- Global `String.prototype.replace` with a constant replacement: repeatedly
substitute the leftmost match.  All patterns replaced in the source match at
least one character, so the `st < en` guard never bites; `fuel` bounds the
iteration count (one unit per match, each consuming at least one character). -/
def replaceREAux (r : JsRegex) (repl : List Char) : Nat → List Char → List Char
  | 0, s => s
  | fuel + 1, s =>
    match searchOff r.ci r.re s 0 with
    | none => s
    | some (st, en, _) =>
      if st < en then s.take st ++ repl ++ replaceREAux r repl fuel (s.drop en)
      else s

def replaceRE (r : JsRegex) (repl : String) (s : String) : String :=
  String.mk (replaceREAux r repl.toList (s.toList.length + 1) s.toList)

/-! ## Character classes of the source's patterns -/

/-- ECMAScript `\s` (WhiteSpace ∪ LineTerminator), restricted to the
characters that can actually arise here. -/
def wsChar (c : Char) : Bool :=
  c == ' ' || c == '\t' || c == '\n' || c == '\r' || c == '\x0b' || c == '\x0c' ||
  c == '\u00A0' || c == '\uFEFF'

/-- `\d` = `[0-9]`. -/
def digitChar (c : Char) : Bool :=
  48 ≤ c.toNat && c.toNat ≤ 57

/-- `[:\s]`. -/
def colonWs (c : Char) : Bool :=
  c == ':' || wsChar c

/-- `[：:\s]` (full-width colon, ASCII colon, whitespace). -/
def cnColonWs (c : Char) : Bool :=
  c == '：' || c == ':' || wsChar c

/-- `[^\s<>"]`. -/
def urlChar (c : Char) : Bool :=
  !(wsChar c || c == '<' || c == '>' || c == '"')

/-- `[a-zA-Z0-9_-]`. -/
def tokenChar (c : Char) : Bool :=
  (65 ≤ c.toNat && c.toNat ≤ 90) || (97 ≤ c.toNat && c.toNat ≤ 122) ||
  digitChar c || c == '_' || c == '-'

/-! ## Pattern construction helpers -/

def strR (s : String) : RE := .str s.toList

/-- Left-preferring alternation of a list (ECMAScript tries alternatives in
source order).  The empty list yields a never-matching pattern. -/
def alts : List RE → RE
  | [] => .cls (fun _ => false)
  | [r] => r
  | r :: rs => .alt r (alts rs)

def oneOf (ws : List String) : RE := alts (ws.map strR)

def seqs : List RE → RE
  | [] => .eps
  | [r] => r
  | r :: rs => .seq r (seqs rs)

/-- `https?:\/\/`. -/
def httpPre : RE := seqs [strR "http", .opt (strR "s"), strR "://"]

/-! ## The extractor's pattern lists (source order: `src/utils/extractor.ts`) -/

/-- The ten `codePatterns`, in source order.  English patterns carry the `i`
flag, Chinese ones only `g`. -/
def codePatterns : List JsRegex := [
  -- /(?:code|otp|pin|passcode|password|verification)[:\s]+(\d{4,8})/gi
  ⟨seqs [oneOf ["code", "otp", "pin", "passcode", "password", "verification"],
         .plusCls colonWs, .group (.repCls 4 8 digitChar)], true⟩,
  -- /(?:enter|use|your)\s+(?:code|otp|pin)[:\s]+(\d{4,8})/gi
  ⟨seqs [oneOf ["enter", "use", "your"], .plusCls wsChar,
         oneOf ["code", "otp", "pin"], .plusCls colonWs,
         .group (.repCls 4 8 digitChar)], true⟩,
  -- /(\d{4,8})\s+(?:is your|is the)?\s*(?:code|otp|pin|verification)/gi
  ⟨seqs [.group (.repCls 4 8 digitChar), .plusCls wsChar,
         .opt (oneOf ["is your", "is the"]), .starCls wsChar,
         oneOf ["code", "otp", "pin", "verification"]], true⟩,
  -- /verification[:\s]*(\d{4,8})/gi
  ⟨seqs [strR "verification", .starCls colonWs, .group (.repCls 4 8 digitChar)], true⟩,
  -- /one-time\s*(?:password|code)[:\s]*(\d{4,8})/gi
  ⟨seqs [strR "one-time", .starCls wsChar, oneOf ["password", "code"],
         .starCls colonWs, .group (.repCls 4 8 digitChar)], true⟩,
  -- /验证码[：:\s]*(\d{4,8})/g
  ⟨seqs [strR "验证码", .starCls cnColonWs, .group (.repCls 4 8 digitChar)], false⟩,
  -- /校验码[：:\s]*(\d{4,8})/g
  ⟨seqs [strR "校验码", .starCls cnColonWs, .group (.repCls 4 8 digitChar)], false⟩,
  -- /动态码[：:\s]*(\d{4,8})/g
  ⟨seqs [strR "动态码", .starCls cnColonWs, .group (.repCls 4 8 digitChar)], false⟩,
  -- /安全码[：:\s]*(\d{4,8})/g
  ⟨seqs [strR "安全码", .starCls cnColonWs, .group (.repCls 4 8 digitChar)], false⟩,
  -- /(\d{4,8})[是为]?[您你]的?验证码/g
  ⟨seqs [.group (.repCls 4 8 digitChar), .opt (.cls (fun c => c == '是' || c == '为')),
         .cls (fun c => c == '您' || c == '你'), .opt (strR "的"), strR "验证码"], false⟩
]

/-- The five `linkPatterns`, in source order (all `gi`). -/
def linkPatterns : List JsRegex := [
  -- /https?:\/\/[^\s<>"]+(?:verify|confirm|activate|validate|auth)[^\s<>"]*/gi
  ⟨seqs [httpPre, .plusCls urlChar,
         oneOf ["verify", "confirm", "activate", "validate", "auth"],
         .starCls urlChar], true⟩,
  -- /https?:\/\/[^\s<>"]+(?:reset|password|recover)[^\s<>"]*/gi
  ⟨seqs [httpPre, .plusCls urlChar, oneOf ["reset", "password", "recover"],
         .starCls urlChar], true⟩,
  -- /https?:\/\/[^\s<>"]+(?:magic|login|signin|sign-in)[^\s<>"]*/gi
  ⟨seqs [httpPre, .plusCls urlChar, oneOf ["magic", "login", "signin", "sign-in"],
         .starCls urlChar], true⟩,
  -- /https?:\/\/[^\s<>"]+[?&](?:token|code|key)=[a-zA-Z0-9_-]+[^\s<>"]*/gi
  ⟨seqs [httpPre, .plusCls urlChar, .cls (fun c => c == '?' || c == '&'),
         oneOf ["token", "code", "key"], strR "=", .plusCls tokenChar,
         .starCls urlChar], true⟩,
  -- /https?:\/\/[^\s<>"]+(?:unsubscribe|opt-out|optout)[^\s<>"]*/gi
  ⟨seqs [httpPre, .plusCls urlChar, oneOf ["unsubscribe", "opt-out", "optout"],
         .starCls urlChar], true⟩
]

/-! ## `extractData` (src/utils/extractor.ts) -/

structure ExtractedData where
  code : Option String
  links : Option (List String)
deriving DecidableEq, Repr

/-- The `lastIndex` values of the module-level global-flag regex objects:
this is the hidden mutable state that `extractData` reads and writes. -/
structure ExtractorState where
  codeLast : List Nat
  linkLast : List Nat
deriving DecidableEq, Repr

/-- Fresh module state: every `lastIndex` is 0. -/
def initState : ExtractorState :=
  ⟨List.replicate 10 0, List.replicate 5 0⟩

/-- The code-extraction loop.  For each pattern in order: `exec` from its
current `lastIndex`; on a match with a non-empty capture, set the code and
`break` — leaving that pattern's `lastIndex` at the match end (the `break`
skips the manual reset in the source).  Otherwise the `lastIndex` ends up 0
(automatic reset on failed `exec`, plus the source's manual reset). -/
def codeLoop (content : List Char) : List JsRegex → List Nat → Option String × List Nat
  | [], _ => (none, [])
  | p :: ps, lis =>
    match execFrom p content (lis.headD 0) with
    | some (_, en, some cap) =>
      if cap.isEmpty then
        let r := codeLoop content ps lis.tail
        (r.1, 0 :: r.2)
      else
        (some (String.mk cap), en :: lis.tail)
    | _ =>
      let r := codeLoop content ps lis.tail
      (r.1, 0 :: r.2)

/-- `[.,;:!?)\]}>]` — the trailing punctuation stripped from matched URLs. -/
def punctChar (c : Char) : Bool :=
  c == '.' || c == ',' || c == ';' || c == ':' || c == '!' || c == '?' ||
  c == ')' || c == ']' || c == '}' || c == '>'

/-- `url.replace(/[.,;:!?)\]}>]+$/, '')`: drop the maximal trailing run of
punctuation characters. -/
def stripTrailingPunct (s : String) : String :=
  String.mk (((s.toList.reverse).dropWhile punctChar).reverse)

/-- JavaScript `Set.prototype.add` on an insertion-ordered list. -/
def insertIfAbsent (acc : List String) (x : String) : List String :=
  if acc.contains x then acc else acc ++ [x]

/-- The `while ((match = pattern.exec(content)) !== null)` loop for one link
pattern: collect each match (trimmed of trailing punctuation) into the set,
advancing `lastIndex` to the match end.  `fuel` bounds iterations; each match
consumes at least one character, so `content.length + 1` units suffice. -/
def collectLinks (r : JsRegex) (content : List Char) : Nat → Nat → List String → List String
  | 0, _, acc => acc
  | fuel + 1, li, acc =>
    match execFrom r content li with
    | none => acc
    | some (st, en, _) =>
      collectLinks r content fuel en
        (insertIfAbsent acc (stripTrailingPunct (String.mk ((content.drop st).take (en - st)))))

/-- The link-extraction loop over all five patterns.  After each pattern's
`while` loop its `lastIndex` is 0 (automatic reset on the final failed `exec`,
plus the source's manual reset). -/
def linkLoopAll (content : List Char) : List JsRegex → List Nat → List String → List String
  | [], _, acc => acc
  | p :: ps, lis, acc =>
    linkLoopAll content ps lis.tail
      (collectLinks p content (content.length + 1) (lis.headD 0) acc)

/-- `extractData(text, html)` with the module-level regex state made explicit:
returns the extracted data together with the state left behind for the next
invocation. -/
def extractData (st : ExtractorState) (text : String) (html : Option String) :
    ExtractedData × ExtractorState :=
  let content := (text ++ " " ++ html.getD "").toList
  let cl := codeLoop content codePatterns st.codeLast
  let links := linkLoopAll content linkPatterns st.linkLast []
  ({ code := cl.1, links := if links.isEmpty then none else some links },
   ⟨cl.2, List.replicate 5 0⟩)

/-- A call to `extractData` on a freshly-loaded module (all `lastIndex` 0). -/
def extract (text : String) (html : Option String) : ExtractedData :=
  (extractData initState text html).1

/-! ## MIME normalizer (src/handlers/email.ts) -/

/-- JavaScript `String.prototype.trim` (whitespace as in `wsChar`). -/
def jsTrim (s : String) : String :=
  String.mk (((s.toList.dropWhile wsChar).reverse.dropWhile wsChar).reverse)

/-- `body.replace(/\s/g, '')`. -/
def stripJsWs (s : String) : String :=
  String.mk (s.toList.filter (fun c => !wsChar c))

/-- `String.prototype.indexOf` for a substring, in scalar positions
(`none` for JavaScript's `-1`). -/
def idxOfSub (hay sub : List Char) : Option Nat :=
  if sub.isPrefixOf hay then some 0
  else
    match hay with
    | [] => none
    | _ :: t => (idxOfSub t sub).map (· + 1)

/-- The `\r\n\r\n` header/body separator. -/
def sepCrlf2 : List Char := ['\r', '\n', '\r', '\n']

/-- First pass of `decodeQuotedPrintable`: `input.replace(/=\r?\n/g, '')`
(soft line breaks). -/
def removeSoftBreaks : List Char → List Char
  | '=' :: '\r' :: '\n' :: rest => removeSoftBreaks rest
  | '=' :: '\n' :: rest => removeSoftBreaks rest
  | c :: rest => c :: removeSoftBreaks rest
  | [] => []

/-- `[0-9A-Fa-f]` digit value. -/
def hexVal (c : Char) : Option Nat :=
  if 48 ≤ c.toNat && c.toNat ≤ 57 then some (c.toNat - 48)
  else if 65 ≤ c.toNat && c.toNat ≤ 70 then some (c.toNat - 55)
  else if 97 ≤ c.toNat && c.toNat ≤ 102 then some (c.toNat - 87)
  else none

/-- Second pass of `decodeQuotedPrintable`:
`.replace(/=([0-9A-Fa-f]{2})/g, (_, hex) => String.fromCharCode(parseInt(hex, 16)))`
— leftmost, non-overlapping. -/
def decodeHexEscapes : List Char → List Char
  | '=' :: a :: b :: rest =>
    match hexVal a, hexVal b with
    | some x, some y => Char.ofNat (16 * x + y) :: decodeHexEscapes rest
    | _, _ => '=' :: decodeHexEscapes (a :: b :: rest)
  | c :: rest => c :: decodeHexEscapes rest
  | [] => []

/-- `decodeQuotedPrintable` (src/handlers/email.ts): remove soft line breaks,
then decode `=XX` hex escapes. -/
def decodeQuotedPrintable (input : String) : String :=
  String.mk (decodeHexEscapes (removeSoftBreaks input.toList))

/-- Base64 alphabet value. -/
def b64Val (c : Char) : Option Nat :=
  if 65 ≤ c.toNat && c.toNat ≤ 90 then some (c.toNat - 65)
  else if 97 ≤ c.toNat && c.toNat ≤ 122 then some (c.toNat - 71)
  else if 48 ≤ c.toNat && c.toNat ≤ 57 then some (c.toNat + 4)
  else if c == '+' then some 62
  else if c == '/' then some 63
  else none

/-- Decode a padding-free base64 character sequence to bytes: full chunks of
four characters yield three bytes; a final chunk of two or three characters
yields one or two bytes (trailing bits discarded); a final chunk of one
character is an error. -/
def atobChunks : List Char → Option (List Char)
  | [] => some []
  | [_] => none
  | [a, b] =>
    match b64Val a, b64Val b with
    | some va, some vb => some [Char.ofNat (va * 4 + vb / 16)]
    | _, _ => none
  | [a, b, c] =>
    match b64Val a, b64Val b, b64Val c with
    | some va, some vb, some vc =>
      some [Char.ofNat (va * 4 + vb / 16), Char.ofNat (vb % 16 * 16 + vc / 4)]
    | _, _, _ => none
  | a :: b :: c :: d :: rest =>
    match b64Val a, b64Val b, b64Val c, b64Val d with
    | some va, some vb, some vc, some vd =>
      (atobChunks rest).map
        (fun tl => Char.ofNat (va * 4 + vb / 16) :: Char.ofNat (vb % 16 * 16 + vc / 4) ::
                   Char.ofNat (vc % 4 * 64 + vd) :: tl)
    | _, _, _, _ => none

/-- ASCII whitespace stripped by `atob` itself (forgiving-base64). -/
def asciiWs (c : Char) : Bool :=
  c == ' ' || c == '\t' || c == '\n' || c == '\r' || c == '\x0c'

/-- Remove up to two trailing `=` padding characters. -/
def dropPadding (l : List Char) : List Char :=
  match l.reverse with
  | '=' :: '=' :: r => r.reverse
  | '=' :: r => r.reverse
  | _ => l

/-- The platform `atob` builtin (WHATWG forgiving-base64 decode), returning
`none` where the builtin throws.  The source wraps its calls in `try`/`catch`. -/
def atobOpt (s : String) : Option String :=
  let l := s.toList.filter (fun c => !asciiWs c)
  let l := if l.length % 4 == 0 then dropPadding l else l
  if l.length % 4 == 1 then none
  else (atobChunks l).map String.mk

/-! ### htmlToText -/

/-- `/<style[^>]*>[\s\S]*?<\/style>/gi` -/
def styleRE : JsRegex :=
  ⟨seqs [strR "<style", .starCls (fun c => !(c == '>')), strR ">", .lazyAny, strR "</style>"], true⟩

/-- `/<script[^>]*>[\s\S]*?<\/script>/gi` -/
def scriptRE : JsRegex :=
  ⟨seqs [strR "<script", .starCls (fun c => !(c == '>')), strR ">", .lazyAny, strR "</script>"], true⟩

/-- `/<br\s*\/?>/gi` -/
def brRE : JsRegex :=
  ⟨seqs [strR "<br", .starCls wsChar, .opt (strR "/"), strR ">"], true⟩

/-- `/<[^>]+>/g` -/
def tagRE : JsRegex :=
  ⟨seqs [strR "<", .plusCls (fun c => !(c == '>')), strR ">"], false⟩

/-- `/\n{3,}/g` -/
def nl3RE : JsRegex := ⟨.repMin 3 (fun c => c == '\n'), false⟩

/-- `htmlToText` (src/handlers/email.ts): strip style/script blocks, convert
line-breaking tags to newlines, strip remaining tags, unescape the five
common entities, collapse 3+ newlines, trim. -/
def htmlToText (html : String) : String :=
  let s := replaceRE styleRE "" html
  let s := replaceRE scriptRE "" s
  let s := replaceRE brRE "\n" s
  let s := replaceRE ⟨strR "</p>", true⟩ "\n\n" s
  let s := replaceRE ⟨strR "</div>", true⟩ "\n" s
  let s := replaceRE tagRE "" s
  let s := replaceRE ⟨strR "&nbsp;", false⟩ " " s
  let s := replaceRE ⟨strR "&amp;", false⟩ "&" s
  let s := replaceRE ⟨strR "&lt;", false⟩ "<" s
  let s := replaceRE ⟨strR "&gt;", false⟩ ">" s
  let s := replaceRE ⟨strR "&quot;", false⟩ "\"" s
  let s := replaceRE ⟨strR "&#39;", false⟩ "\x27" s
  let s := replaceRE nl3RE "\n\n" s
  jsTrim s

/-! ### parseMimeContent -/

/-- `{ text, html? }` — the normalized body. -/
structure MimeResult where
  text : String
  html : Option String
deriving DecidableEq, Repr

/-- `/boundary="?([^"\r\n]+)"?/i` -/
def boundaryRE : JsRegex :=
  ⟨seqs [strR "boundary=", .opt (strR "\""),
         .group (.plusCls (fun c => !(c == '"' || c == '\r' || c == '\n'))),
         .opt (strR "\"")], true⟩

/-- `/content-type:\s*text\/plain/i` -/
def ctPlainRE : JsRegex :=
  ⟨seqs [strR "content-type:", .starCls wsChar, strR "text/plain"], true⟩

/-- `/content-type:\s*text\/html/i` -/
def ctHtmlRE : JsRegex :=
  ⟨seqs [strR "content-type:", .starCls wsChar, strR "text/html"], true⟩

/-- `/content-transfer-encoding:\s*quoted-printable/i` -/
def qpRE : JsRegex :=
  ⟨seqs [strR "content-transfer-encoding:", .starCls wsChar, strR "quoted-printable"], true⟩

/-- `/content-transfer-encoding:\s*base64/i` -/
def b64RE : JsRegex :=
  ⟨seqs [strR "content-transfer-encoding:", .starCls wsChar, strR "base64"], true⟩

/-- Worker for `jsSplitOn`: scan left to right; whenever the separator is a
prefix of the rest, cut the current segment and jump past the separator.
`fuel` bounds the step count (`length + 1` suffices: every step consumes at
least one character or ends the scan). -/
def jsSplitAux (sep : List Char) : Nat → List Char → List Char → List (List Char)
  | 0, s, acc => [acc ++ s]
  | fuel + 1, s, acc =>
    if sep.isPrefixOf s then
      acc :: jsSplitAux sep fuel (s.drop sep.length) []
    else
      match s with
      | [] => [acc]
      | c :: rest => jsSplitAux sep fuel rest (acc ++ [c])

/-- JavaScript `String.prototype.split` with a non-empty string separator
(the separator used below always starts with `--`, so the empty-separator
behaviour of `split` is irrelevant). -/
def jsSplitOn (s sep : String) : List String :=
  if sep.toList.isEmpty then [s]
  else (jsSplitAux sep.toList (s.toList.length + 1) s.toList []).map String.mk

/-- `raw.match(/boundary="?([^"\r\n]+)"?/i)`, projected to the capture group. -/
def boundaryCapture (raw : String) : Option String :=
  match execFrom boundaryRE raw.toList 0 with
  | some (_, _, some cap) => some (String.mk cap)
  | _ => none

/-- The transfer-decoding applied to a body, with the encoding headers looked
up in `headerScope` (the whole raw message for the single-part path, the
individual segment for the multipart path): quoted-printable decode, or
base64 decode falling back to the original text when `atob` throws. -/
def transferDecode (headerScope : String) (body : String) : String :=
  if reTest qpRE headerScope then decodeQuotedPrintable body
  else if reTest b64RE headerScope then
    match atobOpt (stripJsWs body) with
    | some d => d
    | none => body
  else body

/-- The single-part path of `parseMimeContent`: body is everything after the
first `\r\n\r\n` — the source tests `bodyStart > 0`, so a separator at
position 0 (or absent, `indexOf` returning -1) leaves the whole raw text as
the body. -/
def rawBody (raw : String) : String :=
  match idxOfSub raw.toList sepCrlf2 with
  | some i => if 0 < i then String.mk (raw.toList.drop (i + 4)) else raw
  | none => raw

def singlePartParse (raw : String) : MimeResult :=
  let isHtml := reTest ctHtmlRE raw
  let decoded := transferDecode raw (rawBody raw)
  if isHtml then ⟨htmlToText decoded, some decoded⟩ else ⟨decoded, none⟩

/-- One iteration of the multipart `for (const part of parts)` loop, on the
state `(text, html)`: skip blank and terminal segments, skip untyped
segments, skip segments without a `\r\n\r\n` separator; otherwise trim and
transfer-decode the segment body, then fill `text` (only if still empty) for
`text/plain` segments, else overwrite `html` for `text/html` segments. -/
def processPart (st : String × Option String) (part : String) : String × Option String :=
  if jsTrim part == "" || jsTrim part == "--" then st
  else
    let isTextPart := reTest ctPlainRE part
    let isHtmlPart := reTest ctHtmlRE part
    if !isTextPart && !isHtmlPart then st
    else
      match idxOfSub part.toList sepCrlf2 with
      | none => st
      | some bodyStart =>
        let content := transferDecode part (jsTrim (String.mk (part.toList.drop (bodyStart + 4))))
        if isTextPart && st.1 == "" then (content, st.2)
        else if isHtmlPart then (st.1, some content)
        else st

def processParts (parts : List String) : String × Option String :=
  parts.foldl processPart ("", none)

/-- `parseMimeContent` (src/handlers/email.ts). -/
def parseMimeContent (raw : String) : MimeResult :=
  match boundaryCapture raw with
  | none => singlePartParse raw
  | some b =>
    let parts := jsSplitOn raw ("--" ++ b)
    let th := processParts parts
    if th.1 == "" then
      match th.2 with
      | some h => ⟨htmlToText h, th.2⟩
      | none => ⟨th.1, th.2⟩
    else ⟨th.1, th.2⟩

/-! ## Specification-side definitions

These re-state, independently of the fold/loop structure of the
implementation, what the spec says the results should be; the theorems below
compare them with the implementation. -/

/-- The content string the extractor scans: `text` and `html` space-joined. -/
def contentOf (text : String) (html : Option String) : List Char :=
  (text ++ " " ++ html.getD "").toList

/-- The code one pattern yields on the content (scanning from position 0):
the captured digit group of its leftmost match, if any. -/
def codeOfPattern (content : List Char) (p : JsRegex) : Option String :=
  match execFrom p content 0 with
  | some (_, _, some cap) => if cap.isEmpty then none else some (String.mk cap)
  | _ => none

/-- Spec-side code extraction: the first pattern in priority order that
matches anywhere (scanning from position 0) determines the result, via its
captured digit group. -/
def specCode (content : List Char) : Option String :=
  codePatterns.findSome? (codeOfPattern content)

/-- All matches of one pattern, scanning left to right from `li`, each match
resuming at the previous match's end.  `fuel` bounds the iteration count. -/
def allMatchesAux (r : JsRegex) (content : List Char) : Nat → Nat → List (List Char)
  | 0, _ => []
  | fuel + 1, li =>
    match execFrom r content li with
    | none => []
    | some (st, en, _) => (content.drop st).take (en - st) :: allMatchesAux r content fuel en

/-- Keep the first occurrence of each element, dropping later duplicates. -/
def dedupFirst : List String → List String
  | [] => []
  | x :: xs => x :: dedupFirst (xs.filter (fun y => y != x))
termination_by l => l.length
decreasing_by
  simp only [List.length_cons]
  exact Nat.lt_succ_of_le (xs.length_filter_le _)

/-- Spec-side link extraction: per pattern category (in order), the matches in
order of appearance, each trimmed of trailing punctuation; concatenated and
de-duplicated keeping first occurrences. -/
def specLinks (content : List Char) : List String :=
  dedupFirst ((linkPatterns.map fun p =>
    (allMatchesAux p content (content.length + 1) 0).map
      (fun m => stripTrailingPunct (String.mk m))).flatten)

/-- A multipart segment that the loop does not skip outright: not blank, not
the terminal `--` marker, and containing a `\r\n\r\n` separator. -/
def partEligible (part : String) : Bool :=
  !(jsTrim part == "" || jsTrim part == "--") && (idxOfSub part.toList sepCrlf2).isSome

/-- The trimmed, transfer-decoded body of a segment (`none` without a
separator). -/
def partDecoded (part : String) : Option String :=
  match idxOfSub part.toList sepCrlf2 with
  | none => none
  | some i => some (transferDecode part (jsTrim (String.mk (part.toList.drop (i + 4)))))

/-- The decoded contents of the `text/plain` segments the loop examines, in
order. -/
def plainContents (parts : List String) : List String :=
  parts.filterMap fun p =>
    if partEligible p && reTest ctPlainRE p then partDecoded p else none

/-- The decoded contents of the `text/html` segments the loop examines, in
order. -/
def htmlContents (parts : List String) : List String :=
  parts.filterMap fun p =>
    if partEligible p && reTest ctHtmlRE p then partDecoded p else none

/-- The last element of a list, or a default option when empty. -/
def lastOr (l : List String) (h : Option String) : Option String :=
  match l.getLast? with
  | some x => some x
  | none => h

/-! ## Concrete inputs used by the counterexamples and witnesses -/

/-- A multipart message whose first `text/plain` segment decodes to the empty
string and whose second decodes to `"second"`. -/
def raw5 : String :=
  "Content-Type: multipart/alternative; boundary=\"b\"\r\n\r\n--b\r\nContent-Type: text/plain\r\n\r\n\r\n--b\r\nContent-Type: text/plain\r\n\r\nsecond\r\n--b--"

/-- A message whose headers carry no boundary parameter, but whose body
contains the text `boundary=abc`. -/
def raw6 : String := "Subject: x\r\n\r\nsee boundary=abc here"

/-- A multipart message with only a `text/html` segment. -/
def raw7 : String :=
  "Content-Type: multipart/alternative; boundary=\"z\"\r\n\r\n--z\r\nContent-Type: text/html\r\n\r\n<p>Hello</p>\r\n--z--"

/-- A single-part message declaring base64 whose body is not decodable. -/
def rawB64 : String := "Content-Transfer-Encoding: base64\r\n\r\n!!!"

/-- A single-part HTML message. -/
def rawH : String := "Content-Type: text/html\r\n\r\n<p>Hi</p>"

/-- A multipart segment whose headers are separated by bare LF newlines. -/
def part10 : String := "\nContent-Type: text/plain\n\nbody"

/-! ## Helper lemmas -/

theorem codeLoop_zeros (content : List Char) :
    ∀ (ps : List JsRegex) (lis : List Nat), (∀ x ∈ lis, x = 0) →
      (codeLoop content ps lis).1 = ps.findSome? (codeOfPattern content) := by
  intro ps
  induction ps with
  | nil => intro lis _; simp [codeLoop]
  | cons p ps ih =>
    intro lis hz
    have hhead : lis.headD 0 = 0 := by
      cases lis with
      | nil => rfl
      | cons x xs => exact hz x (List.mem_cons_self x xs)
    have htail : ∀ x ∈ lis.tail, x = 0 := fun x hx => hz x (List.mem_of_mem_tail hx)
    rw [codeLoop, hhead, List.findSome?_cons]
    rcases hE : execFrom p content 0 with _ | ⟨st, en, cap⟩
    · simp [hE, codeOfPattern, ih _ htail]
    · rcases cap with _ | c
      · simp [hE, codeOfPattern, ih _ htail]
      · rcases hc : c.isEmpty with _ | _
        · simp [hE, codeOfPattern, hc]
        · simp [hE, codeOfPattern, hc, ih _ htail]

theorem collectLinks_spec (r : JsRegex) (content : List Char) :
    ∀ (fuel li : Nat) (acc : List String),
      collectLinks r content fuel li acc =
        ((allMatchesAux r content fuel li).map
          (fun m => stripTrailingPunct (String.mk m))).foldl insertIfAbsent acc := by
  intro fuel
  induction fuel with
  | zero => intro li acc; rfl
  | succ n ih =>
    intro li acc
    rw [collectLinks, allMatchesAux]
    rcases hE : execFrom r content li with _ | ⟨st, en, cap⟩
    · simp
    · simp [ih]

theorem linkLoopAll_zeros (content : List Char) :
    ∀ (ps : List JsRegex) (lis : List Nat) (acc : List String), (∀ x ∈ lis, x = 0) →
      linkLoopAll content ps lis acc =
        ((ps.map fun p =>
            (allMatchesAux p content (content.length + 1) 0).map
              (fun m => stripTrailingPunct (String.mk m))).flatten).foldl insertIfAbsent acc := by
  intro ps
  induction ps with
  | nil => intro lis acc _; rfl
  | cons p ps ih =>
    intro lis acc hz
    have hhead : lis.headD 0 = 0 := by
      cases lis with
      | nil => rfl
      | cons x xs => exact hz x (List.mem_cons_self x xs)
    have htail : ∀ x ∈ lis.tail, x = 0 := fun x hx => hz x (List.mem_of_mem_tail hx)
    rw [linkLoopAll, hhead, ih _ _ htail, collectLinks_spec]
    simp [List.foldl_append]

theorem foldl_insertIfAbsent :
    ∀ (l : List String) (acc : List String),
      l.foldl insertIfAbsent acc = acc ++ dedupFirst (l.filter (fun x => !acc.contains x)) := by
  intro l
  induction l with
  | nil => intro acc; simp [dedupFirst]
  | cons x xs ih =>
    intro acc
    rw [List.foldl_cons, ih]
    by_cases hx : x ∈ acc
    · have h1 : insertIfAbsent acc x = acc := by simp [insertIfAbsent, hx]
      have h2 : (x :: xs).filter (fun y => !acc.contains y) =
          xs.filter (fun y => !acc.contains y) := by
        simp [List.filter_cons, hx]
      rw [h1, h2]
    · have h1 : insertIfAbsent acc x = acc ++ [x] := by simp [insertIfAbsent, hx]
      have h2 : (x :: xs).filter (fun y => !acc.contains y) =
          x :: xs.filter (fun y => !acc.contains y) := by
        simp [List.filter_cons, hx]
      rw [h1, h2, dedupFirst]
      have h3 : xs.filter (fun y => !(acc ++ [x]).contains y) =
          (xs.filter (fun y => !acc.contains y)).filter (fun y => y != x) := by
        rw [List.filter_filter]
        apply List.filter_congr
        intro a _
        by_cases hax : a = x <;> by_cases ham : a ∈ acc <;> simp [hax, ham]
      rw [h3]
      simp

theorem linkList_eq_specLinks (content : List Char) :
    linkLoopAll content linkPatterns (List.replicate 5 0) [] = specLinks content := by
  rw [linkLoopAll_zeros content linkPatterns _ [] (by simp), foldl_insertIfAbsent]
  have h : ∀ (L : List String), (L.filter fun x => !(([] : List String).contains x)) = L := by
    intro L
    apply List.filter_eq_self.mpr
    intro a _
    simp
  rw [h]
  simp [specLinks]

theorem extract_code_eq_specCode (text : String) (html : Option String) :
    (extract text html).code = specCode (contentOf text html) := by
  rw [extract, extractData, specCode]
  exact codeLoop_zeros _ _ _ (by simp [initState])

theorem extract_links_eq_specLinks (text : String) (html : Option String) :
    (extract text html).links =
      (if (specLinks (contentOf text html)).isEmpty then none
       else some (specLinks (contentOf text html))) := by
  rw [extract, extractData]
  simp only [initState]
  rw [linkList_eq_specLinks]
  rfl

theorem findSome?_eq_none_of_all_none {α β : Type} {l : List α} {f : α → Option β}
    (h : ∀ a ∈ l, f a = none) : l.findSome? f = none := by
  induction l with
  | nil => rfl
  | cons x xs ih =>
    rw [List.findSome?_cons]
    rw [h x (List.mem_cons_self x xs)]
    exact ih (fun a ha => h a (List.mem_cons_of_mem x ha))

theorem lastOr_cons (c : String) (H : List String) (h : Option String) :
    lastOr (c :: H) h = lastOr H (some c) := by
  induction H generalizing c h with
  | nil => rfl
  | cons d H' ih =>
    have e1 : lastOr (c :: d :: H') h = lastOr (d :: H') h := by
      rw [lastOr, lastOr, List.getLast?_cons_cons]
    rw [e1, ih d h, ih d (some c)]

theorem lastOr_none (l : List String) : lastOr l none = l.getLast? := by
  rw [lastOr]
  cases l.getLast? <;> rfl

theorem processPart_char (st : String × Option String) (p : String) :
    processPart st p =
      match (if partEligible p then partDecoded p else none) with
      | some c =>
        if reTest ctPlainRE p && (st.1 == "") then (c, st.2)
        else if reTest ctHtmlRE p then (st.1, some c)
        else st
      | none => st := by
  rw [processPart, partEligible]
  by_cases hb : (jsTrim p == "" || jsTrim p == "--") = true
  · simp [hb]
  · rw [if_neg hb]
    simp only [Bool.not_eq_true] at hb
    rw [hb]
    rcases hsep : idxOfSub p.toList sepCrlf2 with _ | i
    · simp [hsep, partDecoded]
    · rw [partDecoded, hsep]
      by_cases ht : reTest ctPlainRE p = true
      · by_cases hst : (st.1 == "") = true
        · simp [ht, hst, hsep]
        · simp only [Bool.not_eq_true] at hst
          by_cases hh : reTest ctHtmlRE p = true
          · simp [ht, hst, hh, hsep]
          · simp only [Bool.not_eq_true] at hh
            simp [ht, hst, hh, hsep]
      · simp only [Bool.not_eq_true] at ht
        by_cases hh : reTest ctHtmlRE p = true
        · simp [ht, hh, hsep]
        · simp only [Bool.not_eq_true] at hh
          simp [ht, hh, hsep]

theorem plainContents_cons (p : String) (parts : List String) :
    plainContents (p :: parts) =
      match (if partEligible p && reTest ctPlainRE p then partDecoded p else none) with
      | some c => c :: plainContents parts
      | none => plainContents parts := by
  simp only [plainContents, List.filterMap_cons]
  cases hq : (if (partEligible p && reTest ctPlainRE p) = true then partDecoded p else none) <;> rfl

theorem htmlContents_cons (p : String) (parts : List String) :
    htmlContents (p :: parts) =
      match (if partEligible p && reTest ctHtmlRE p then partDecoded p else none) with
      | some c => c :: htmlContents parts
      | none => htmlContents parts := by
  simp only [htmlContents, List.filterMap_cons]
  cases hq : (if (partEligible p && reTest ctHtmlRE p) = true then partDecoded p else none) <;> rfl

theorem foldl_processPart (parts : List String) :
    ∀ (t : String) (h : Option String),
      (∀ p ∈ parts, ¬(reTest ctPlainRE p = true ∧ reTest ctHtmlRE p = true)) →
      parts.foldl processPart (t, h) =
        ((if t == "" then ((plainContents parts).find? (fun s => s != "")).getD "" else t),
         lastOr (htmlContents parts) h) := by
  induction parts with
  | nil =>
    intro t h _
    by_cases ht : t = "" <;>
      simp [ht, plainContents, htmlContents, lastOr]
  | cons p parts ih =>
    intro t h hnb
    have hnbt := hnb p (List.mem_cons_self p parts)
    have hnbr : ∀ q ∈ parts, ¬(reTest ctPlainRE q = true ∧ reTest ctHtmlRE q = true) :=
      fun q hq => hnb q (List.mem_cons_of_mem p hq)
    rw [List.foldl_cons, processPart_char, plainContents_cons, htmlContents_cons]
    by_cases he : partEligible p = true
    · have hsep : (idxOfSub p.toList sepCrlf2).isSome = true := by
        rw [partEligible] at he
        exact (Bool.and_elim_right he)
      rcases hci : idxOfSub p.toList sepCrlf2 with _ | i
      · rw [hci] at hsep; simp at hsep
      · have hc : partDecoded p = some (transferDecode p
            (jsTrim (String.mk (p.toList.drop (i + 4))))) := by
          rw [partDecoded, hci]
        set c := transferDecode p (jsTrim (String.mk (p.toList.drop (i + 4)))) with hcdef
        rw [he, hc]
        by_cases hp : reTest ctPlainRE p = true
        · have hh : reTest ctHtmlRE p = false := by
            rcases hH : reTest ctHtmlRE p with _ | _
            · rfl
            · exact absurd ⟨hp, hH⟩ hnbt
          by_cases hts : t = ""
          · subst hts
            rw [hp, hh]
            simp only [Bool.true_and, Bool.and_true, Bool.false_eq_true, if_false,
              beq_self_eq_true, if_true]
            rw [ih c h hnbr]
            by_cases hcs : c = ""
            · simp [hcs, List.find?_cons]
            · have hcs' : (c == "") = false := by simpa using hcs
              have hcs2 : (c != "") = true := by simp [bne, hcs']
              simp [hcs', List.find?_cons, hcs2]
          · have hts' : (t == "") = false := by simpa using hts
            rw [hp, hh, hts']
            simp only [Bool.true_and, Bool.and_false, Bool.false_eq_true, if_false, if_true]
            rw [ih t h hnbr]
            simp [hts']
        · have hp' : reTest ctPlainRE p = false := by simpa using hp
          rw [hp']
          by_cases hh : reTest ctHtmlRE p = true
          · rw [hh]
            simp only [Bool.false_and, Bool.true_and, Bool.and_true, if_true,
              Bool.false_eq_true, if_false]
            rw [ih t (some c) hnbr, lastOr_cons]
          · have hh' : reTest ctHtmlRE p = false := by simpa using hh
            rw [hh']
            simp only [Bool.false_and, Bool.and_false, Bool.false_eq_true, if_false]
            exact ih t h hnbr
    · have he' : partEligible p = false := by simpa using he
      rw [he']
      simp only [Bool.false_and, Bool.false_eq_true, if_false]
      exact ih t h hnbr

theorem mem_htmlContents_cons {x : String} (p : String) (parts : List String)
    (hm : x ∈ htmlContents parts) : x ∈ htmlContents (p :: parts) := by
  rw [htmlContents_cons]
  cases hq : (if (partEligible p && reTest ctHtmlRE p) = true then partDecoded p else none) with
  | none => exact hm
  | some c => exact List.mem_cons_of_mem c hm

theorem foldl_processPart_html (parts : List String) :
    ∀ (t : String) (h : Option String) (x : String),
      (parts.foldl processPart (t, h)).2 = some x → x ∈ htmlContents parts ∨ h = some x := by
  induction parts with
  | nil => intro t h x hx; right; exact hx
  | cons p parts ih =>
    intro t h x hx
    rw [List.foldl_cons, processPart_char] at hx
    by_cases he : partEligible p = true
    · rcases hci : idxOfSub p.toList sepCrlf2 with _ | i
      · rw [partEligible, hci] at he
        simp at he
      · have hc : partDecoded p = some (transferDecode p
            (jsTrim (String.mk (p.toList.drop (i + 4))))) := by
          rw [partDecoded, hci]
        set c := transferDecode p (jsTrim (String.mk (p.toList.drop (i + 4)))) with hcdef
        rw [he, hc] at hx
        simp only [if_true] at hx
        by_cases hpt : (reTest ctPlainRE p && (t == "")) = true
        · rw [hpt] at hx
          simp only [if_true] at hx
          rcases ih c h x hx with hm | hh2
          · exact Or.inl (mem_htmlContents_cons p parts hm)
          · exact Or.inr hh2
        · have hpt' : (reTest ctPlainRE p && (t == "")) = false := by simpa using hpt
          rw [hpt'] at hx
          simp only [Bool.false_eq_true, if_false] at hx
          by_cases hh : reTest ctHtmlRE p = true
          · rw [hh] at hx
            simp only [if_true] at hx
            rcases ih t (some c) x hx with hm | hh2
            · exact Or.inl (mem_htmlContents_cons p parts hm)
            · left
              rw [htmlContents_cons, he, hh, hc]
              simp only [Bool.and_self, if_true]
              have : c = x := by injection hh2
              rw [this]
              exact List.mem_cons_self x _
          · have hh' : reTest ctHtmlRE p = false := by simpa using hh
            rw [hh'] at hx
            simp only [Bool.false_eq_true, if_false] at hx
            rcases ih t h x hx with hm | hh2
            · exact Or.inl (mem_htmlContents_cons p parts hm)
            · exact Or.inr hh2
    · have he' : partEligible p = false := by simpa using he
      rw [he'] at hx
      simp only [Bool.false_eq_true, if_false] at hx
      rcases ih t h x hx with hm | hh2
      · exact Or.inl (mem_htmlContents_cons p parts hm)
      · exact Or.inr hh2

theorem parseMime_html_eq (raw b : String) (hb : boundaryCapture raw = some b) :
    (parseMimeContent raw).html = (processParts (jsSplitOn raw ("--" ++ b))).2 := by
  simp only [parseMimeContent, hb]
  by_cases hq : ((processParts (jsSplitOn raw ("--" ++ b))).1 == "") = true
  · simp only [hq, if_true]
    rcases hh : (processParts (jsSplitOn raw ("--" ++ b))).2 with _ | h0 <;> simp [hh]
  · have hq' : ((processParts (jsSplitOn raw ("--" ++ b))).1 == "") = false := by
      simpa using hq
    simp [hq']

set_option maxRecDepth 400000

/-! ## The claims -/

/-- Claim C1: the spec asserts `extract(text, html)` called twice with
identical inputs returns identical output (no hidden state, the `lastIndex`
of the global-flag regexes being reset between invocations).  The code
violates this: when a code pattern matches, the `break` skips the manual
`lastIndex` reset, so the matched pattern's position is retained and a second
identical call misses the code.  This theorem evaluates the code at the
failing input `extract("code: 1234")`: the first call yields `"1234"`, the
immediately repeated identical call yields no code, and the state left behind
differs from the fresh state. -/
theorem extract_idempotence_divergence :
    (extractData initState "code: 1234" none).1.code = some "1234" ∧
    (extractData (extractData initState "code: 1234" none).2 "code: 1234" none).1.code = none ∧
    (extractData initState "code: 1234" none).2 ≠ initState := by
  refine ⟨by decide, by decide, by decide⟩

/-- Claim C2: the spec asserts that `extract("您的验证码：123456")` and
`extract("Your code is 123456")` both yield code `"123456"`.  The Chinese
form does, but no pattern in the source covers the English "code is N" form
(the keyword-then-number pattern requires `[:\s]+` directly between the
keyword and the digits, and the number-then-keyword pattern requires the
digits BEFORE the keyword), so the English call yields no code — contradicting
the spec and the repository's own test expectations. -/
theorem multilingual_code_divergence :
    (extract "您的验证码：123456" none).code = some "123456" ∧
    (extract "Your code is 123456" none).code = none := by
  refine ⟨by decide, by decide⟩

/-- Claim C3 counterexample: the claim asserts a 9+-digit run adjacent to
"code" produces no match at all, and in particular is never returned in
truncated form.  But the patterns are not right-anchored: on
`"code: 123456789"` the `\d{4,8}` group greedily captures the first eight
digits and the code `"12345678"` is returned. -/
theorem code_digit_bounds_counterexample :
    (extract "code: 123456789" none).code = some "12345678" := by decide

/-- Claim C3 amended: 3 digits are rejected, 8 digits are accepted, and a
9+-digit run adjacent to "code" is not returned verbatim — but it IS matched
in truncated form, yielding the first eight digits. -/
theorem code_digit_bounds_amended :
    (extract "Error code: 123" none).code = none ∧
    (extract "Code: 12345678" none).code = some "12345678" ∧
    (extract "code: 123456789" none).code = some "12345678" ∧
    (extract "code: 123456789" none).code ≠ some "123456789" := by
  refine ⟨by decide, by decide, by decide, by decide⟩

/-- Claim C4: code extraction tries the patterns in fixed priority order and
the first pattern matching anywhere in the concatenated content determines
the result (its captured 4–8 digit group returned verbatim, leading zeros
preserved); `extract("Primary code: 111111, backup code: 222222")` yields
`"111111"`; and when no pattern matches, the code is `null` with no fallback
to a bare number. -/
theorem code_priority_first_match :
    (∀ (text : String) (html : Option String),
       (extract text html).code = specCode (contentOf text html)) ∧
    (extract "Primary code: 111111, backup code: 222222" none).code = some "111111" ∧
    (extract "code: 0123" none).code = some "0123" ∧
    (∀ (text : String) (html : Option String),
       (∀ p ∈ codePatterns, execFrom p (contentOf text html) 0 = none) →
       (extract text html).code = none) := by
  refine ⟨extract_code_eq_specCode, by decide, by decide, ?_⟩
  intro text html hfail
  rw [extract_code_eq_specCode, specCode]
  apply findSome?_eq_none_of_all_none
  intro p hp
  rw [codeOfPattern, hfail p hp]

theorem code_priority_first_match_witness :
    (extract "no digits here" none).code = none :=
  code_priority_first_match.2.2.2 "no digits here" none (by decide)

/-- Claim C9: link extraction returns `null` when no URL matches any of the
five keyword-category patterns (e.g. on `"Visit us: https://example.com/about"`),
and otherwise the list of matched URLs with trailing punctuation trimmed,
de-duplicated by exact string equality across categories keeping first
occurrences, ordered by pattern category and then order of appearance
(`specLinks`). -/
theorem link_extraction_spec :
    (∀ (text : String) (html : Option String),
       (extract text html).links =
         (if (specLinks (contentOf text html)).isEmpty then none
          else some (specLinks (contentOf text html)))) ∧
    (extract "Visit us: https://example.com/about" none).links = none ∧
    (extract "Verify: https://example.com/verify?token=abc" none).links =
      some ["https://example.com/verify?token=abc"] := by
  refine ⟨extract_links_eq_specLinks, by decide, by decide⟩

/-- Claim C5 counterexample: the claim asserts the multipart `text` always
equals the decoded content of the FIRST `text/plain` segment.  On `raw5`
the first plain segment decodes to the empty string, which the source's
`!text` truthiness test treats as "still unset", so the SECOND plain
segment's content `"second"` is returned instead. -/
theorem multipart_first_plain_counterexample :
    boundaryCapture raw5 = some "b" ∧
    plainContents (jsSplitOn raw5 ("--" ++ "b")) = ["", "second"] ∧
    (parseMimeContent raw5).text = "second" ∧
    (parseMimeContent raw5).text ≠ "" := by
  refine ⟨by decide, by decide, by decide, by decide⟩

/-- Claim C5 amended: for a multipart message none of whose segments declares
both `text/plain` and `text/html`, `html` equals the decoded content of the
LAST `text/html` segment, and `text` equals the decoded content of the first
`text/plain` segment whose decoded content is NON-EMPTY (a plain segment
decoding to the empty string is treated as absent); when no such segment
exists, `text` falls back to `htmlToText` of the html part, or `""`. -/
theorem multipart_precedence_amended (raw b : String)
    (hb : boundaryCapture raw = some b)
    (hnb : ∀ p ∈ jsSplitOn raw ("--" ++ b),
      ¬(reTest ctPlainRE p = true ∧ reTest ctHtmlRE p = true)) :
    (parseMimeContent raw).html = (htmlContents (jsSplitOn raw ("--" ++ b))).getLast? ∧
    (parseMimeContent raw).text =
      (match (plainContents (jsSplitOn raw ("--" ++ b))).find? (fun s => s != "") with
       | some tx => tx
       | none =>
         match (htmlContents (jsSplitOn raw ("--" ++ b))).getLast? with
         | some hh => htmlToText hh
         | none => "") := by
  have hT : processParts (jsSplitOn raw ("--" ++ b)) =
      (((plainContents (jsSplitOn raw ("--" ++ b))).find? (fun s => s != "")).getD "",
       lastOr (htmlContents (jsSplitOn raw ("--" ++ b))) none) := by
    rw [processParts, foldl_processPart _ "" none hnb]
    simp
  simp only [parseMimeContent, hb, hT, lastOr_none]
  rcases hf : (plainContents (jsSplitOn raw ("--" ++ b))).find? (fun s => s != "") with _ | tx
  · rcases hl : (htmlContents (jsSplitOn raw ("--" ++ b))).getLast? with _ | hh
    · simp [hl]
    · simp [hl]
  · have hne : (tx != "") = true := by simpa using List.find?_some hf
    have hne' : (tx == "") = false := by simpa [bne] using hne
    simp [hne']

theorem multipart_precedence_amended_witness :
    (parseMimeContent raw5).text = "second" ∧ (parseMimeContent raw5).html = none := by
  constructor
  · rw [(multipart_precedence_amended raw5 "b" (by decide) (by decide)).2]
    decide
  · rw [(multipart_precedence_amended raw5 "b" (by decide) (by decide)).1]
    decide

/-- Claim C6 counterexample: the claim asserts that a message whose HEADERS
contain no boundary parameter is processed via the single-part path, text in
the body never triggering multipart handling.  But the source matches the
boundary regex against the WHOLE raw message: `raw6`'s headers
(`"Subject: x"`) carry no boundary, yet the words `boundary=abc` in its body
send it down the multipart path (yielding empty text), while the single-part
path would have yielded the body. -/
theorem boundary_headers_counterexample :
    raw6 = "Subject: x" ++ "\r\n\r\n" ++ "see boundary=abc here" ∧
    boundaryCapture "Subject: x" = none ∧
    parseMimeContent raw6 = ⟨"", none⟩ ∧
    singlePartParse raw6 = ⟨"see boundary=abc here", none⟩ ∧
    parseMimeContent raw6 ≠ singlePartParse raw6 := by
  refine ⟨rfl, by decide, by decide, by decide, by decide⟩

/-- Claim C6 amended: the boundary parameter is searched in the ENTIRE raw
message, headers and body alike.  When the boundary regex matches nowhere in
the raw text, the message is processed via the single-part path; the
multipart path is taken exactly when it matches somewhere (anywhere) in the
raw text. -/
theorem boundary_anywhere_amended (raw : String) :
    (boundaryCapture raw = none → parseMimeContent raw = singlePartParse raw) ∧
    (∀ b, boundaryCapture raw = some b →
       parseMimeContent raw =
         (if (processParts (jsSplitOn raw ("--" ++ b))).1 == "" then
            match (processParts (jsSplitOn raw ("--" ++ b))).2 with
            | some h =>
              (⟨htmlToText h, (processParts (jsSplitOn raw ("--" ++ b))).2⟩ : MimeResult)
            | none =>
              ⟨(processParts (jsSplitOn raw ("--" ++ b))).1,
               (processParts (jsSplitOn raw ("--" ++ b))).2⟩
          else
            ⟨(processParts (jsSplitOn raw ("--" ++ b))).1,
             (processParts (jsSplitOn raw ("--" ++ b))).2⟩)) := by
  constructor
  · intro hb
    simp only [parseMimeContent, hb]
  · intro b hb
    simp only [parseMimeContent, hb]

theorem boundary_anywhere_amended_witness :
    parseMimeContent "plain text here" = singlePartParse "plain text here" :=
  (boundary_anywhere_amended "plain text here").1 (by decide)

/-- Claim C7: the normalized body invariant.  (a) In the multipart path, when
no plain text was collected but an html segment was, `text` is derived via
`htmlToText` from that html.  (b) Whenever `html` is present in the result,
an html source existed: a `text/html` segment in the multipart case, or a
`content-type: text/html` header in the single-part case.  (c) In the
single-part case with an HTML content type, `text` is `htmlToText` of the
decoded body and `html` is that decoded body. -/
theorem normalized_body_invariant :
    (∀ (raw b hh : String), boundaryCapture raw = some b →
       (processParts (jsSplitOn raw ("--" ++ b))).1 = "" →
       (processParts (jsSplitOn raw ("--" ++ b))).2 = some hh →
       (parseMimeContent raw).text = htmlToText hh) ∧
    (∀ (raw hh : String), (parseMimeContent raw).html = some hh →
       (match boundaryCapture raw with
        | some b => hh ∈ htmlContents (jsSplitOn raw ("--" ++ b))
        | none => reTest ctHtmlRE raw = true)) ∧
    (∀ (raw : String), boundaryCapture raw = none → reTest ctHtmlRE raw = true →
       (parseMimeContent raw).text = htmlToText (transferDecode raw (rawBody raw)) ∧
       (parseMimeContent raw).html = some (transferDecode raw (rawBody raw))) := by
  refine ⟨?_, ?_, ?_⟩
  · intro raw b hh hb h1 h2
    have hpair : processParts (jsSplitOn raw ("--" ++ b)) = ("", some hh) := by
      rw [Prod.ext_iff]
      exact ⟨h1, h2⟩
    simp only [parseMimeContent, hb, hpair]
    simp
  · intro raw hh h
    rcases hb : boundaryCapture raw with _ | b
    · simp only [hb]
      simp only [parseMimeContent, hb, singlePartParse] at h
      by_cases hH : reTest ctHtmlRE raw = true
      · exact hH
      · have hH' : reTest ctHtmlRE raw = false := by simpa using hH
        rw [hH'] at h
        simp at h
    · simp only [hb]
      rw [parseMime_html_eq raw b hb, processParts] at h
      rcases foldl_processPart_html (jsSplitOn raw ("--" ++ b)) "" none hh h with hm | hcontra
      · exact hm
      · cases hcontra
  · intro raw hb hH
    refine ⟨?_, ?_⟩ <;> simp [parseMimeContent, hb, singlePartParse, hH]

theorem normalized_body_invariant_witness :
    (parseMimeContent raw7).text = htmlToText "<p>Hello</p>" ∧
    (parseMimeContent rawH).html = some (transferDecode rawH (rawBody rawH)) :=
  ⟨normalized_body_invariant.1 raw7 "z" "<p>Hello</p>" (by decide) (by decide) (by decide),
   (normalized_body_invariant.2.2 rawH (by decide) (by decide)).2⟩

/-- Claim C8: the MIME normalizer (a total function in this embedding) never
fails, degrading to best-effort output on malformed input: (i) in a
single-part message declaring base64 whose body `atob` cannot decode, the
original still-encoded body is returned unchanged as `text`; (ii) when no
boundary parameter is present, single-part handling applies; (iii) when the
single-part body separator `\r\n\r\n` is also missing (and no decoding or
HTML applies), the full raw text is returned as the body; (iv) a multipart
segment declaring base64 whose trimmed body `atob` cannot decode keeps its
original still-encoded content. -/
theorem mime_fallback_semantics :
    (∀ (raw : String), boundaryCapture raw = none → reTest ctHtmlRE raw = false →
       reTest qpRE raw = false → reTest b64RE raw = true →
       atobOpt (stripJsWs (rawBody raw)) = none →
       (parseMimeContent raw).text = rawBody raw) ∧
    (∀ (raw : String), boundaryCapture raw = none →
       parseMimeContent raw = singlePartParse raw) ∧
    (∀ (raw : String), boundaryCapture raw = none →
       idxOfSub raw.toList sepCrlf2 = none → reTest ctHtmlRE raw = false →
       reTest qpRE raw = false → reTest b64RE raw = false →
       parseMimeContent raw = ⟨raw, none⟩) ∧
    (∀ (part : String) (i : Nat), reTest qpRE part = false → reTest b64RE part = true →
       idxOfSub part.toList sepCrlf2 = some i →
       atobOpt (stripJsWs (jsTrim (String.mk (part.toList.drop (i + 4))))) = none →
       partDecoded part = some (jsTrim (String.mk (part.toList.drop (i + 4))))) := by
  refine ⟨?_, ?_, ?_, ?_⟩
  · intro raw hb hH hqp hb64 hatob
    simp [parseMimeContent, hb, singlePartParse, hH, transferDecode, hqp, hb64, hatob]
  · intro raw hb
    simp only [parseMimeContent, hb]
  · intro raw hb hsep hH hqp hb64
    have hsep' : idxOfSub raw.data sepCrlf2 = none := hsep
    simp [parseMimeContent, hb, singlePartParse, hH, transferDecode, hqp, hb64, rawBody, hsep']
  · intro part i hqp hb64 hci hatob
    have hatob' : atobOpt (stripJsWs (jsTrim (String.mk (part.data.drop (i + 4))))) = none := hatob
    rw [partDecoded, hci]
    simp [transferDecode, hqp, hb64, hatob']

theorem mime_fallback_semantics_witness :
    (parseMimeContent rawB64).text = rawBody rawB64 ∧
    parseMimeContent "just text" = ⟨"just text", none⟩ :=
  ⟨mime_fallback_semantics.1 rawB64 (by decide) (by decide) (by decide) (by decide) (by decide),
   mime_fallback_semantics.2.2.1 "just text" (by decide) (by decide) (by decide)
     (by decide) (by decide)⟩

/-- Claim C10: a multipart segment that declares `text/plain` or `text/html`
but contains no `\r\n\r\n` header/body separator is skipped entirely,
contributing neither to `text` nor to `html` (so a segment whose headers are
separated only by bare LF newlines is silently dropped). -/
theorem part_missing_separator_skipped (part : String) (st : String × Option String)
    (_htyped : reTest ctPlainRE part = true ∨ reTest ctHtmlRE part = true)
    (hsep : idxOfSub part.toList sepCrlf2 = none) :
    processPart st part = st := by
  have hd : partDecoded part = none := by rw [partDecoded, hsep]
  rw [processPart_char, hd]
  cases he : partEligible part <;> simp [he]

theorem part_missing_separator_skipped_witness :
    processPart ("", none) part10 = ("", none) :=
  part_missing_separator_skipped part10 ("", none) (Or.inl (by decide)) (by decide)

end Mailcat
